import Mathlib

/-
Verification development for the NewsHound feed pipeline
(src/newshound_server.py): a shallow embedding of the feed parser
(`fetch_feed`, `_text`), the date normalizer (`fmt_date`), the HTML tag
stripper (`strip_html`), the per-source aggregation with dedup and the
per-category classification of `Handler._do_search`, together with
theorems about the behaviour this code exhibits.

Python strings are modelled as `String`/`List Char` (Python indexing and
slicing are by code point, as is `List Char`).  Python string methods
`lower`/`upper`/`strip` are modelled on the ASCII range, which is all the
pipeline's own literals use.  Python `x or y` on strings returns `x` when
`x` is non-empty, else `y`.
-/

namespace NewsHound

/-- One-or-more characters that Python's `\s` / `str.strip()` treat as
whitespace (ASCII part). -/
def pyIsSpace (c : Char) : Bool :=
  c = ' ' || c = '\t' || c = '\n' || c = '\x0d' || c = '\x0b' || c = '\x0c'

/-- Drop leading whitespace. -/
def dropWsL : List Char → List Char
  | [] => []
  | c :: rest => if pyIsSpace c then dropWsL rest else c :: rest

/-- Python `str.strip()`: drop whitespace at both ends. -/
def pyStripL (l : List Char) : List Char :=
  ((dropWsL l).reverse |> dropWsL).reverse

/-- Python `str.strip()` on `String`. -/
def pyStripS (s : String) : String := String.mk (pyStripL s.data)

/-- Python `str.lower()` (ASCII). -/
def lowerL (l : List Char) : List Char := l.map Char.toLower

/-- Python `str.lower()` on `String`. -/
def pyLower (s : String) : String := String.mk (lowerL s.data)

/-- Python `str.upper()` (ASCII). -/
def pyUpper (s : String) : String := String.mk (s.data.map Char.toUpper)

/-- Python `x or y` for strings: `x` if non-empty ("truthy"), else `y`. -/
def pyOr (x y : String) : String := if x = "" then y else x

/-- `w` is a prefix of `l`. -/
def isPfx : List Char → List Char → Bool
  | [], _ => true
  | _ :: _, [] => false
  | a :: as, b :: bs => a = b && isPfx as bs

/-- Python's substring test `needle in hay`. -/
def pyIn (needle : List Char) : List Char → Bool
  | [] => needle.isEmpty
  | c :: rest => isPfx needle (c :: rest) || pyIn needle rest

/-- Python slice `l[:n]` for an `int` bound `n`: a negative bound counts
from the end of the list (`l[:-k]` drops the last `k` elements). -/
def pyTake (n : Int) (l : List α) : List α :=
  if 0 ≤ n then l.take n.toNat else l.take (l.length - (-n).toNat)

/-! ### XML element model (`xml.etree.ElementTree`)

An parsed XML element: its tag (with any namespace already expanded to
ElementTree's `{uri}local` form), its attributes, its direct text (the
text before its first child, `None` when absent) and its direct children
in document order. -/

inductive XElem where
  | mk (tag : String) (attrs : List (String × String))
       (text : Option String) (children : List XElem)

def XElem.tag : XElem → String
  | .mk t _ _ _ => t

def XElem.attrs : XElem → List (String × String)
  | .mk _ a _ _ => a

def XElem.text : XElem → Option String
  | .mk _ _ t _ => t

def XElem.children : XElem → List XElem
  | .mk _ _ _ c => c

/-- `Element.find(tag)` for a plain tag (no path characters): the first
direct child whose tag equals `tag` literally, else `None`.  The source
also calls `find('dc:date')`; CPython's accelerated ElementTree treats
that as a plain (never-matching) tag, not as a path, so literal
comparison is the faithful model. -/
def pyFind (el : XElem) (t : String) : Option XElem :=
  el.children.find? (fun c => decide (c.tag = t))

/-- `Element.findall(tag)` for a plain tag: all direct children with that
tag, in document order. -/
def pyFindall (el : XElem) (t : String) : List XElem :=
  el.children.filter (fun c => decide (c.tag = t))

/-- `Element.get(attr, '')`. -/
def pyAttr (el : XElem) (a : String) : String :=
  match el.attrs.find? (fun p => decide (p.1 = a)) with
  | some p => p.2
  | none => ""

/-- `_text(el, *tags)` (src lines 96-101): for each candidate tag in
order, if the child exists and its text is truthy (non-`None`, non-empty)
return the stripped text, else fall through; default `''`. -/
def pyText (el : XElem) : List String → String
  | [] => ""
  | t :: ts =>
    match pyFind el t with
    | some child =>
      match child.text with
      | some s => if s = "" then pyText el ts else pyStripS s
      | none => pyText el ts
    | none => pyText el ts

/-! ### Articles and the feed parser (`fetch_feed`) -/

/-- One normalized article.  `fetch_feed` always populates the four
parse-time keys (possibly with `''`), and the aggregation loop stamps
`sourceName`; at parse time it is `''` (the dicts produced by
`fetch_feed` simply lack the key, and every later read uses
`.get('sourceName', '')`). -/
structure Article where
  title : String
  link : String
  pubDate : String
  description : String
  sourceName : String
deriving DecidableEq, Repr

/-- One RSS `item` (src lines 85-92). -/
def parseRssItem (item : XElem) : Article :=
  { title := pyText item ["title"]
    link := pyOr (pyText item ["link"]) (pyText item ["guid"])
    pubDate := pyOr (pyText item ["pubDate"])
      (pyText item ["dc:date", "\x7bhttp://purl.org/dc/elements/1.1/\x7ddate"])
    description := pyOr (pyText item ["description"])
      (pyText item ["\x7bhttp://purl.org/rss/1.0/modules/content/\x7dencoded"])
    sourceName := "" }

/-- One Atom `entry` (src lines 73-81). -/
def parseAtomEntry (entry : XElem) : Article :=
  { title := pyText entry ["\x7bhttp://www.w3.org/2005/Atom\x7dtitle"]
    link :=
      match pyFind entry "\x7bhttp://www.w3.org/2005/Atom\x7dlink" with
      | some el => pyAttr el "href"
      | none => ""
    pubDate := pyOr (pyText entry ["\x7bhttp://www.w3.org/2005/Atom\x7dupdated"])
      (pyText entry ["\x7bhttp://www.w3.org/2005/Atom\x7dpublished"])
    description := pyOr (pyText entry ["\x7bhttp://www.w3.org/2005/Atom\x7dsummary"])
      (pyText entry ["\x7bhttp://www.w3.org/2005/Atom\x7dcontent"])
    sourceName := "" }

/-- What one `fetch_feed(url, ...)` call has to work with: the network
fetch raised (caught at src lines 57-59), `ET.fromstring` raised
`ParseError` (caught at src lines 63-65), or a parsed XML document. -/
inductive RawFeed where
  | fetchError
  | parseError
  | xml (root : XElem)

/-- `'feed' in tag` (substring test on the lowered root tag). -/
def containsFeed (s : String) : Bool := pyIn "feed".data s.data

/-- `fetch_feed` (src lines 47-94) after the I/O: a total function — both
failure branches return `[]`, and field extraction never fails.  The RSS
branch models `root.find('channel') or root`: Python element truthiness
is "has at least one child", so an existing but childless `channel`
element is falsy and the root is used instead. -/
def fetch_feed (raw : RawFeed) (max_items : Int) : List Article :=
  match raw with
  | .fetchError => []
  | .parseError => []
  | .xml root =>
    if containsFeed (pyLower root.tag) then
      (pyTake max_items
        (pyFindall root "\x7bhttp://www.w3.org/2005/Atom\x7dentry")).map parseAtomEntry
    else
      let channel :=
        match pyFind root "channel" with
        | some ch => if ch.children.isEmpty then root else ch
        | none => root
      (pyTake max_items (pyFindall channel "item")).map parseRssItem

/-! ### Date normalizer (`fmt_date`, src lines 107-117)

`fmt_date` tries `datetime.strptime(s.strip(), fmt)` for the five fixed
formats in order and reformats the first success with
`strftime('%-m/%-d/%y')`; on empty input it returns `''`, otherwise it
falls back to `s[:10]`.  CPython's `_strptime` compiles each format to a
case-insensitive regex (so letter literals and names match in any case),
anchors it at the start, and rejects the attempt when input remains
after the match; the `datetime` constructor then rejects impossible
calendar dates (day past end of month, year 0, leap seconds, utc-offset
hours above 23), which equally makes that format's attempt fail.  Each
`pXxx` parser below consumes from a `List Char` and returns the rest. -/

def digitVal (c : Char) : Nat := c.toNat - 48

/-- A one-or-two digit numeric field, regex-style: the two-digit
alternatives (characterised by `ok2`) are preferred, falling back to a
single digit accepted by `ok1`.  In every format each such field is
followed by a non-digit, so the regex backtracking never produces a
different outcome than this greedy choice. -/
def pNum2or1 (ok2 ok1 : Nat → Bool) : List Char → Option (Nat × List Char)
  | c1 :: c2 :: rest =>
    if c1.isDigit && c2.isDigit && ok2 (digitVal c1 * 10 + digitVal c2) then
      some (digitVal c1 * 10 + digitVal c2, rest)
    else if c1.isDigit && ok1 (digitVal c1) then some (digitVal c1, c2 :: rest)
    else none
  | [c1] => if c1.isDigit && ok1 (digitVal c1) then some (digitVal c1, []) else none
  | [] => none

/-- `%d`: `3[01]|[12]\d|0[1-9]|[1-9]`. -/
def ok2Day (v : Nat) : Bool := 1 ≤ v && v ≤ 31

/-- `%m`: `1[0-2]|0[1-9]|[1-9]`. -/
def ok2Mon (v : Nat) : Bool := 1 ≤ v && v ≤ 12

/-- `%H`: `2[0-3]|[0-1]\d|\d`. -/
def ok2Hour (v : Nat) : Bool := v ≤ 23

/-- `%M`: `[0-5]\d|\d`. -/
def ok2Min (v : Nat) : Bool := v ≤ 59

/-- `%S`: `6[0-1]|[0-5]\d|\d` (leap seconds pass the regex but are then
rejected by the `datetime` constructor). -/
def ok2Sec (v : Nat) : Bool := v ≤ 61

def ok1Pos (v : Nat) : Bool := 1 ≤ v

def okAny (_ : Nat) : Bool := true

/-- `%Y`: exactly four digits. -/
def pYear4 : List Char → Option (Nat × List Char)
  | a :: b :: c :: d :: rest =>
    if a.isDigit && b.isDigit && c.isDigit && d.isDigit then
      some (digitVal a * 1000 + digitVal b * 100 + digitVal c * 10 + digitVal d, rest)
    else none
  | _ => none

/-- Strip the word `w` from the front of `l`, comparing letters
case-insensitively (the whole strptime regex is IGNORECASE). -/
def stripCI : List Char → List Char → Option (List Char)
  | [], rest => some rest
  | _ :: _, [] => none
  | a :: ws, b :: rest => if a.toLower = b.toLower then stripCI ws rest else none

/-- Match one of `names` (0-based result index). -/
def pAnyName : List String → Nat → List Char → Option (Nat × List Char)
  | [], _, _ => none
  | n :: ns, i, l =>
    match stripCI n.data l with
    | some rest => some (i, rest)
    | none => pAnyName ns (i + 1) l

/-- `%a` names of the C locale. -/
def dayNames : List String := ["mon", "tue", "wed", "thu", "fri", "sat", "sun"]

/-- `%b` names of the C locale. -/
def monthNames : List String :=
  ["jan", "feb", "mar", "apr", "may", "jun", "jul", "aug", "sep", "oct", "nov", "dec"]

/-- A whitespace character in the format: matches one or more input
whitespace characters. -/
def pWs1 : List Char → Option (List Char)
  | c :: rest => if pyIsSpace c then some (dropWsL rest) else none
  | [] => none

/-- An exact literal character (`,`, `:`, `-`). -/
def pChar (c : Char) : List Char → Option (List Char)
  | d :: rest => if d = c then some rest else none
  | [] => none

/-- A letter literal (`T`, `Z`), case-insensitive under IGNORECASE. -/
def pCharCI (c : Char) : List Char → Option (List Char)
  | d :: rest => if d.toLower = c.toLower then some rest else none
  | [] => none

/-- At most `n` further digits (greedy). -/
def dropDigitsUpTo : Nat → List Char → List Char
  | 0, l => l
  | _ + 1, [] => []
  | n + 1, c :: rest => if c.isDigit then dropDigitsUpTo n rest else c :: rest

/-- The optional fraction `(\.\d{1,6})?` inside `%z`. -/
def pFrac : List Char → List Char
  | '.' :: c :: rest => if c.isDigit then dropDigitsUpTo 5 rest else '.' :: c :: rest
  | l => l

/-- Exactly two digits `[0-5]\d` (utc-offset minutes or seconds). -/
def pMM2 : List Char → Option (Nat × List Char)
  | a :: b :: rest =>
    if a.isDigit && b.isDigit && digitVal a ≤ 5 then
      some (digitVal a * 10 + digitVal b, rest)
    else none
  | _ => none

/-- The optional seconds part `(:?[0-5]\d(\.\d{1,6})?)?` of `%z`. -/
def pTzTail (l : List Char) : List Char :=
  match l with
  | ':' :: a :: b :: rest =>
    if a.isDigit && b.isDigit && digitVal a ≤ 5 then pFrac rest else l
  | a :: b :: rest =>
    if a.isDigit && b.isDigit && digitVal a ≤ 5 then pFrac rest else l
  | _ => l

/-- `%z`: `Z` (case-sensitive: the regex group is `(?-i:Z)`) or
`[+-]\d\d:?[0-5]\d` with the optional seconds tail.  Offset hours above
23 make the `datetime` construction fail, so they are rejected here. -/
def pTzOffset : List Char → Option (List Char)
  | 'Z' :: rest => some rest
  | c :: a :: b :: rest =>
    if (c = '+' || c = '-') && a.isDigit && b.isDigit
        && digitVal a * 10 + digitVal b ≤ 23 then
      match rest with
      | ':' :: rest2 =>
        match pMM2 rest2 with
        | some (_, rest3) => some (pTzTail rest3)
        | none => none
      | _ =>
        match pMM2 rest with
        | some (_, rest3) => some (pTzTail rest3)
        | none => none
    else none
  | _ => none

/-- `%Z`: the timezone-name set of `_strptime`'s C-locale `LocaleTime`
with `tzname = ('UTC', 'UTC')`, namely `utc` and `gmt`
(case-insensitive). -/
def pTzName (l : List Char) : Option (List Char) :=
  match stripCI "utc".data l with
  | some rest => some rest
  | none => stripCI "gmt".data l

def isLeap (y : Nat) : Bool := y % 4 = 0 && (y % 100 ≠ 0 || y % 400 = 0)

def daysInMonth (y m : Nat) : Nat :=
  if m = 2 then (if isLeap y then 29 else 28)
  else if m = 4 || m = 6 || m = 9 || m = 11 then 30
  else 31

/-- The `datetime(year, month, day, ...)` calendar check (month is
already 1..12 by construction of the parsers). -/
def validYMD (y m d : Nat) : Bool := 1 ≤ y && 1 ≤ d && d ≤ daysInMonth y m

/-- `%H:%M:%S`, returning the seconds value (needed for the leap-second
check) and the rest. -/
def pHMS (l : List Char) : Option (Nat × List Char) := do
  let (_, r1) ← pNum2or1 ok2Hour okAny l
  let r2 ← pChar ':' r1
  let (_, r3) ← pNum2or1 ok2Min okAny r2
  let r4 ← pChar ':' r3
  let (s, r5) ← pNum2or1 ok2Sec okAny r4
  some (s, r5)

/-- `'%a, %d %b %Y %H:%M:%S '` — the shared body of the two RFC-822-style
formats, up to and including the whitespace before the timezone. -/
def pRfcBody (l : List Char) : Option (Nat × Nat × Nat × Nat × List Char) := do
  let (_, r1) ← pAnyName dayNames 0 l
  let r2 ← pChar ',' r1
  let r3 ← pWs1 r2
  let (d, r4) ← pNum2or1 ok2Day ok1Pos r3
  let r5 ← pWs1 r4
  let (mIdx, r6) ← pAnyName monthNames 0 r5
  let r7 ← pWs1 r6
  let (y, r8) ← pYear4 r7
  let r9 ← pWs1 r8
  let (s, r10) ← pHMS r9
  let r11 ← pWs1 r10
  some (y, mIdx + 1, d, s, r11)

/-- `'%a, %d %b %Y %H:%M:%S %z'`. -/
def pRfcOffset (l : List Char) : Option (Nat × Nat × Nat) := do
  let (y, m, d, s, r) ← pRfcBody l
  let r2 ← pTzOffset r
  if r2 = [] && s ≤ 59 && validYMD y m d then some (y, m, d) else none

/-- `'%a, %d %b %Y %H:%M:%S %Z'`. -/
def pRfcName (l : List Char) : Option (Nat × Nat × Nat) := do
  let (y, m, d, s, r) ← pRfcBody l
  let r2 ← pTzName r
  if r2 = [] && s ≤ 59 && validYMD y m d then some (y, m, d) else none

/-- `'%Y-%m-%dT%H:%M:%S'` — the shared body of the two ISO formats with a
time part. -/
def pIsoBody (l : List Char) : Option (Nat × Nat × Nat × Nat × List Char) := do
  let (y, r1) ← pYear4 l
  let r2 ← pChar '-' r1
  let (m, r3) ← pNum2or1 ok2Mon ok1Pos r2
  let r4 ← pChar '-' r3
  let (d, r5) ← pNum2or1 ok2Day ok1Pos r4
  let r6 ← pCharCI 'T' r5
  let (s, r7) ← pHMS r6
  some (y, m, d, s, r7)

/-- `'%Y-%m-%dT%H:%M:%S%z'`. -/
def pIsoOffset (l : List Char) : Option (Nat × Nat × Nat) := do
  let (y, m, d, s, r) ← pIsoBody l
  let r2 ← pTzOffset r
  if r2 = [] && s ≤ 59 && validYMD y m d then some (y, m, d) else none

/-- `'%Y-%m-%dT%H:%M:%SZ'` (the trailing `Z` is a letter literal, hence
case-insensitive). -/
def pIsoZ (l : List Char) : Option (Nat × Nat × Nat) := do
  let (y, m, d, s, r) ← pIsoBody l
  let r2 ← pCharCI 'Z' r
  if r2 = [] && s ≤ 59 && validYMD y m d then some (y, m, d) else none

/-- `'%Y-%m-%d'`. -/
def pIsoDate (l : List Char) : Option (Nat × Nat × Nat) := do
  let (y, r1) ← pYear4 l
  let r2 ← pChar '-' r1
  let (m, r3) ← pNum2or1 ok2Mon ok1Pos r2
  let r4 ← pChar '-' r3
  let (d, r5) ← pNum2or1 ok2Day ok1Pos r4
  if r5 = [] && validYMD y m d then some (y, m, d) else none

/-- Try the five formats in the order they appear at src lines 110-111;
the first success wins, and its parsed calendar date is the result. -/
def parseAny (l : List Char) : Option (Nat × Nat × Nat) :=
  match pRfcOffset l with
  | some v => some v
  | none =>
    match pRfcName l with
    | some v => some v
    | none =>
      match pIsoOffset l with
      | some v => some v
      | none =>
        match pIsoZ l with
        | some v => some v
        | none => pIsoDate l

def natStr (n : Nat) : List Char := (Nat.repr n).data

/-- `%y`: the year modulo 100, zero-padded to two digits. -/
def pad2 (n : Nat) : List Char := if n < 10 then '0' :: natStr n else natStr n

/-- `strftime('%-m/%-d/%y')`: month and day without leading zeros. -/
def renderMDY (y m d : Nat) : List Char :=
  natStr m ++ '/' :: natStr d ++ '/' :: pad2 (y % 100)

/-- `fmt_date` (src lines 107-117). -/
def fmt_date (s : String) : String :=
  if s.data = [] then ""
  else
    match parseAny (pyStripL s.data) with
    | some (y, m, d) => String.mk (renderMDY y m d)
    | none => String.mk (s.data.take 10)

/-! ### HTML tag stripper (`strip_html`, src lines 103-105)

`re.sub(r'<[^>]+>', '', s)`: left to right, each `<` that is followed
(after at least one non-`>` character) by a `>` is removed together with
everything up to and including that `>`; a `<` with no such closing `>`
is kept literally. -/

/-- After at least one non-`>` character has been seen: the rest of the
input after the next `>`, if any. -/
def gtTail : List Char → Option (List Char)
  | [] => none
  | c :: rest => if c = '>' then some rest else gtTail rest

/-- The rest of the input after a `[^>]+>` match, if any. -/
def findGt : List Char → Option (List Char)
  | [] => none
  | c :: rest => if c = '>' then none else gtTail rest

/-- Tag-stripping with explicit fuel; each step consumes at least one
character, so fuel equal to the length of the input is enough (the
zero-fuel branch is unreachable from `stripHtmlL`). -/
def stripFuel : Nat → List Char → List Char
  | 0, l => l
  | _ + 1, [] => []
  | fuel + 1, c :: rest =>
    if c = '<' then
      match findGt rest with
      | some rest2 => stripFuel fuel rest2
      | none => c :: stripFuel fuel rest
    else c :: stripFuel fuel rest

/-- `strip_html` on `List Char`. -/
def stripHtmlL (l : List Char) : List Char := stripFuel l.length l

/-! ### Classifier (`_do_search`, src lines 186-227) -/

/-- One input category `{name, keywords}` of the request body. -/
structure CategorySpec where
  name : String
  keywords : List String
deriving DecidableEq, Repr

/-- One emitted article of a category result:
`{title, link, date, pub, hitKws}` (src lines 213-219). -/
structure MatchedArticle where
  title : String
  link : String
  date : String
  pub : String
  hitKws : List String
deriving DecidableEq, Repr

/-- One `{catName, articles}` entry of the response. -/
structure CategoryResult where
  catName : String
  articles : List MatchedArticle
deriving DecidableEq, Repr

/-- `kws = [k.lower() for k in cat.get('keywords', []) if k.strip()]`
(src line 189): keep the keywords whose strip is non-empty, lowercased,
in declared order. -/
def kwsOf (c : CategorySpec) : List String :=
  (c.keywords.filter (fun k => decide (pyStripS k ≠ ""))).map pyLower

/-- The keyword loop (src lines 203-210): the keywords of the category
that hit the selected field(s), in list order.  An unrecognised
`match_field` value hits nothing. -/
def hitsOf (matchField : String) (kws : List String) (titleL descL : List Char) :
    List String :=
  kws.filter (fun kw =>
    if matchField = "title" then pyIn kw.data titleL
    else if matchField = "desc" then pyIn kw.data descL
    else if matchField = "both" then pyIn kw.data titleL || pyIn kw.data descL
    else false)

/-- The article's identity key, `item.get('link') or item.get('title')`
(src lines 177 and 196). -/
def keyOf (a : Article) : String := pyOr a.link a.title

/-- `fmt_date(item.get('pubDate', ''))` etc. (src lines 213-219): the
emitted record.  The dicts built by `fetch_feed` always carry the
`title`, `link`, `pubDate` keys and the aggregation loop always sets
`sourceName`, so every `.get(key, default)` here reads the stored value
and its default is dead. -/
def emitMatched (a : Article) (hits : List String) : MatchedArticle :=
  { title := a.title
    link := a.link
    date := fmt_date a.pubDate
    pub := a.sourceName
    hitKws := hits }

/-- The per-category pool loop (src lines 195-220), with the category's
`seen_links` set threaded through: skip an article whose key was already
matched, otherwise compute the lowered title and the lowered tag-stripped
description, collect the hitting keywords, and emit (marking the key
seen) exactly when at least one keyword hit. -/
def matchLoop (mf : String) (kws : List String) (seen : List String) :
    List Article → List MatchedArticle
  | [] => []
  | a :: rest =>
    let link := keyOf a
    if link ∈ seen then matchLoop mf kws seen rest
    else
      let hits := hitsOf mf kws (lowerL a.title.data)
        (lowerL (stripHtmlL a.description.data))
      if hits = [] then matchLoop mf kws seen rest
      else emitMatched a hits :: matchLoop mf kws (link :: seen) rest

/-- Python string comparison `x < y`: lexicographic on code points. -/
def charsLt : List Char → List Char → Bool
  | _, [] => false
  | [], _ :: _ => true
  | a :: as, b :: bs =>
    a.toNat < b.toNat || (a.toNat = b.toNat && charsLt as bs)

/-- `dateLt x y`: the sort key comparison of src line 223
(`key=lambda x: x['date']`, plain string comparison). -/
def dateLt (x y : MatchedArticle) : Bool := charsLt x.date.data y.date.data

/-- Stable insertion for a descending sort: `m`, which precedes the
already-sorted elements in matching order, is placed before the first
element whose date is not greater than `m`'s. -/
def insertDesc (m : MatchedArticle) : List MatchedArticle → List MatchedArticle
  | [] => [m]
  | b :: l => if dateLt m b then b :: insertDesc m l else m :: b :: l

/-- `matched.sort(key=lambda x: x['date'], reverse=True)` (src line 223):
Python's sort is stable, and with `reverse=True` elements with equal keys
keep their original relative order while keys are non-increasing.  The
stable descending insertion sort is the unique function with those two
properties on every permutation class, so it is the model of the call. -/
def sortDesc : List MatchedArticle → List MatchedArticle
  | [] => []
  | m :: l => insertDesc m (sortDesc l)

/-- One category's result (src lines 188-224): uppercased name, matched
articles sorted newest-first by formatted-date string. -/
def classifyCategory (pool : List Article) (mf : String) (cat : CategorySpec) :
    CategoryResult :=
  { catName := pyUpper cat.name
    articles := sortDesc (matchLoop mf (kwsOf cat) [] pool) }

/-- The category loop of `_do_search` (src lines 186-227): categories
whose processed keyword list is empty are skipped (`continue`) and emit
nothing; the others each contribute one result, in input order. -/
def classify (pool : List Article) (cats : List CategorySpec) (mf : String) :
    List CategoryResult :=
  cats.filterMap (fun c =>
    if kwsOf c = [] then none else some (classifyCategory pool mf c))

/-! ### Source aggregation (`_do_search`, src lines 168-181) -/

/-- `it['sourceName'] = src_name`. -/
def stamp (s : String) (a : Article) : Article := { a with sourceName := s }

/-- The body of the per-source fetch loop, with the source's `seen` set
threaded through: an item whose key is empty or already seen is dropped
silently, every other item is stamped with the source name and kept.
The nested `for url ... for it in items` visits exactly the
concatenation of the per-URL item lists in URL-then-document order. -/
def aggLoop (s : String) (seen : List String) : List Article → List Article
  | [] => []
  | it :: rest =>
    let key := keyOf it
    if key ≠ "" ∧ key ∉ seen then stamp s it :: aggLoop s (key :: seen) rest
    else aggLoop s seen rest

/-- One source's aggregation over the item lists its URLs produced
(`seen = set()` is re-created per source, src line 172). -/
def aggregateItems (s : String) (itemLists : List (List Article)) : List Article :=
  aggLoop s [] itemLists.flatten

/-- One source's aggregation from the raw per-URL fetch outcomes:
`items = fetch_feed(url, max_items)` per URL (src line 175). -/
def aggregateSource (s : String) (feeds : List RawFeed) (max_items : Int) :
    List Article :=
  aggregateItems s (feeds.map (fun f => fetch_feed f max_items))

/-- `max_items = min(int(body.get('max_per_source', 50)), 100)`
(src line 165): the bound actually handed to every `fetch_feed` call. -/
def clampMax (requested : Int) : Int := min requested 100

/-- The whole fetch phase (src lines 169-181): sources in caller order,
each aggregated independently, concatenated into one pool.  `registry`
models the static `SOURCES` table composed with the per-URL fetch
outcome: for a source name it gives the raw outcomes of its URLs in
order. -/
def searchPool (registry : String → List RawFeed) (srcNames : List String)
    (max_items : Int) : List Article :=
  (srcNames.map (fun n => aggregateSource n (registry n) max_items)).flatten

/-- `_do_search` core (src lines 153-227): fetch and aggregate the pool
with the clamped bound, then classify. -/
def do_search (registry : String → List RawFeed) (srcNames : List String)
    (cats : List CategorySpec) (maxPerSource : Int) (mf : String) :
    List CategoryResult :=
  classify (searchPool registry srcNames (clampMax maxPerSource)) cats mf

/-! ### Concrete inputs used by witnesses and counterexamples -/

/-- An RSS item with no `pubDate` (and no Dublin-Core date). -/
def exItemC1 : XElem := .mk "item" [] none [.mk "title" [] (some "T") []]

def exPoolC2 : List Article :=
  [⟨"", "http://x", "", "water level", "S"⟩, ⟨"water title", "", "", "", "S"⟩]

def exCatC2 : CategorySpec := ⟨"w", ["water"]⟩

def exPoolC4 : List Article := [⟨"water rising", "L", "", "", "S"⟩]

def exCatC4 : CategorySpec := ⟨"W", ["water", "water"]⟩

def exItemC5 : XElem :=
  .mk "item" [] none [.mk "title" [] (some "x") [], .mk "link" [] (some "lx") []]

/-- A `channel` element that exists but has no children: falsy in
Python. -/
def exChannelC5 : XElem := .mk "channel" [] none []

/-- Malformed RSS: an empty `channel` next to an `item` directly under
the root. -/
def exRootC5 : XElem := .mk "rss" [] none [exChannelC5, exItemC5]

def exChannelC5b : XElem := .mk "channel" [] none [exItemC5]

def exRootC5b : XElem := .mk "rss" [] none [exChannelC5b]

def exA1 : Article := ⟨"t1", "L1", "", "", ""⟩

def exA2 : Article := ⟨"t2", "L2", "", "", ""⟩

/-- Same identity key as `exA1` but different content: a cross-URL
duplicate. -/
def exA1b : Article := ⟨"t1 again", "L1", "x", "y", ""⟩

def exListsC6 : List (List Article) := [[exA1, exA2], [exA1b, ⟨"t3", "", "", "", ""⟩]]

def exItemC10 : XElem :=
  .mk "item" [] none [.mk "title" [] (some "x10") [], .mk "link" [] (some "l10") []]

def exRootC10 : XElem := .mk "rss" [] none [.mk "channel" [] none [exItemC10]]

def exRegC10 : String → List RawFeed := fun _ => [RawFeed.xml exRootC10]

/-! ### Lemmas: the string order used by the sort -/

theorem charsLt_irrefl (l : List Char) : charsLt l l = false := by
  induction l with
  | nil => rfl
  | cons a as ih => simp [charsLt, ih]

theorem charsLt_asymm :
    ∀ {x y : List Char}, charsLt x y = true → charsLt y x = false := by
  intro x
  induction x with
  | nil =>
    intro y h
    cases y with
    | nil => simp [charsLt] at h
    | cons b bs => simp [charsLt]
  | cons a as ih =>
    intro y h
    cases y with
    | nil => simp [charsLt] at h
    | cons b bs =>
      simp only [charsLt, Bool.or_eq_true, Bool.and_eq_true, decide_eq_true_eq] at h
      simp only [charsLt, Bool.or_eq_false_iff, Bool.and_eq_false_iff,
        decide_eq_false_iff_not]
      rcases h with h | ⟨hab, hlt⟩
      · exact ⟨Nat.not_lt.mpr (Nat.le_of_lt h), Or.inl (fun hba => Nat.lt_irrefl _ (hba ▸ h))⟩
      · exact ⟨by omega, Or.inr (ih hlt)⟩

theorem charsLt_neg_trans :
    ∀ {x y z : List Char}, charsLt x y = false → charsLt y z = false →
      charsLt x z = false := by
  intro x
  induction x with
  | nil =>
    intro y z h1 h2
    cases z with
    | nil => rfl
    | cons c cs =>
      cases y with
      | nil => simp [charsLt] at h2
      | cons b bs => simp [charsLt] at h1
  | cons a as ih =>
    intro y z h1 h2
    cases z with
    | nil => rfl
    | cons c cs =>
      cases y with
      | nil => simp [charsLt] at h2
      | cons b bs =>
        simp only [charsLt, Bool.or_eq_false_iff, Bool.and_eq_false_iff,
          decide_eq_false_iff_not] at h1 h2 ⊢
        obtain ⟨hab, h1r⟩ := h1
        obtain ⟨hbc, h2r⟩ := h2
        refine ⟨by omega, ?_⟩
        by_cases hac : a.toNat = c.toNat
        · have hab2 : a.toNat = b.toNat := by omega
          have hbc2 : b.toNat = c.toNat := by omega
          have h1s : charsLt as bs = false := by
            rcases h1r with h | h
            · exact absurd hab2 h
            · exact h
          have h2s : charsLt bs cs = false := by
            rcases h2r with h | h
            · exact absurd hbc2 h
            · exact h
          exact Or.inr (ih h1s h2s)
        · exact Or.inl hac

theorem dateLt_irrefl (m : MatchedArticle) : dateLt m m = false :=
  charsLt_irrefl _

/-! ### Lemmas: the stable descending insertion sort -/

theorem mem_insertDesc {x m : MatchedArticle} :
    ∀ {l : List MatchedArticle}, x ∈ insertDesc m l ↔ x = m ∨ x ∈ l := by
  intro l
  induction l with
  | nil => simp [insertDesc]
  | cons b bs ih =>
    cases hdb : dateLt m b with
    | true =>
      simp only [insertDesc, hdb, if_true, List.mem_cons, ih]
      tauto
    | false =>
      simp only [insertDesc, hdb, Bool.false_eq_true, if_false, List.mem_cons]

theorem mem_sortDesc {x : MatchedArticle} :
    ∀ {l : List MatchedArticle}, x ∈ sortDesc l ↔ x ∈ l := by
  intro l
  induction l with
  | nil => simp [sortDesc]
  | cons m l ih => simp [sortDesc, mem_insertDesc, ih]

theorem pairwise_insertDesc {m : MatchedArticle} :
    ∀ {l : List MatchedArticle},
      l.Pairwise (fun x y => dateLt x y = false) →
      (insertDesc m l).Pairwise (fun x y => dateLt x y = false) := by
  intro l
  induction l with
  | nil => intro _; simp [insertDesc]
  | cons b bs ih =>
    intro hp
    rw [List.pairwise_cons] at hp
    obtain ⟨hb, hbs⟩ := hp
    cases hdb : dateLt m b with
    | true =>
      simp only [insertDesc, hdb, if_true]
      rw [List.pairwise_cons]
      refine ⟨?_, ih hbs⟩
      intro x hx
      rcases mem_insertDesc.mp hx with rfl | hx
      · exact charsLt_asymm hdb
      · exact hb x hx
    | false =>
      simp only [insertDesc, hdb, Bool.false_eq_true, if_false]
      rw [List.pairwise_cons]
      refine ⟨?_, List.pairwise_cons.mpr ⟨hb, hbs⟩⟩
      intro x hx
      rcases List.mem_cons.mp hx with rfl | hx
      · exact hdb
      · exact charsLt_neg_trans hdb (hb x hx)

theorem pairwise_sortDesc :
    ∀ (l : List MatchedArticle),
      (sortDesc l).Pairwise (fun x y => dateLt x y = false) := by
  intro l
  induction l with
  | nil => simp [sortDesc]
  | cons m l ih => exact pairwise_insertDesc ih

theorem filter_insertDesc (d : String) (m : MatchedArticle) :
    ∀ (l : List MatchedArticle),
      (insertDesc m l).filter (fun x => decide (x.date = d)) =
        (m :: l).filter (fun x => decide (x.date = d)) := by
  intro l
  induction l with
  | nil => rfl
  | cons b bs ih =>
    cases hdb : dateLt m b with
    | true =>
      have hne : ¬(m.date = d ∧ b.date = d) := by
        rintro ⟨h1, h2⟩
        rw [show dateLt m b = charsLt m.date.data b.date.data from rfl,
          h1, h2, charsLt_irrefl] at hdb
        exact Bool.false_ne_true hdb
      simp only [insertDesc, hdb, if_true]
      by_cases hm : m.date = d <;> by_cases hb : b.date = d <;>
        simp_all [List.filter_cons]
    | false => simp [insertDesc, hdb]

theorem filter_sortDesc (d : String) :
    ∀ (l : List MatchedArticle),
      (sortDesc l).filter (fun x => decide (x.date = d)) =
        l.filter (fun x => decide (x.date = d)) := by
  intro l
  induction l with
  | nil => rfl
  | cons m l ih =>
    calc (sortDesc (m :: l)).filter (fun x => decide (x.date = d))
        = (m :: sortDesc l).filter (fun x => decide (x.date = d)) :=
          filter_insertDesc d m (sortDesc l)
      _ = (m :: l).filter (fun x => decide (x.date = d)) := by
          by_cases hm : m.date = d <;> simp_all [List.filter_cons]

/-! ### Lemmas: the matching loop -/

/-- Every emitted record of the matching loop is `emitMatched` of some
pool article with that article's computed hit list. -/
theorem matchLoop_mem {mf : String} {kws : List String} {m : MatchedArticle} :
    ∀ {pool : List Article} {seen : List String}, m ∈ matchLoop mf kws seen pool →
      ∃ a ∈ pool, m = emitMatched a (hitsOf mf kws (lowerL a.title.data)
        (lowerL (stripHtmlL a.description.data))) := by
  intro pool
  induction pool with
  | nil => intro seen h; simp [matchLoop] at h
  | cons a rest ih =>
    intro seen h
    rw [matchLoop] at h
    by_cases hseen : keyOf a ∈ seen
    · rw [if_pos hseen] at h
      obtain ⟨b, hb, he⟩ := ih h
      exact ⟨b, List.mem_cons_of_mem _ hb, he⟩
    · rw [if_neg hseen] at h
      by_cases hhits : hitsOf mf kws (lowerL a.title.data)
          (lowerL (stripHtmlL a.description.data)) = []
      · rw [if_pos hhits] at h
        obtain ⟨b, hb, he⟩ := ih h
        exact ⟨b, List.mem_cons_of_mem _ hb, he⟩
      · rw [if_neg hhits] at h
        rcases List.mem_cons.mp h with rfl | h
        · exact ⟨a, List.mem_cons_self _ _, rfl⟩
        · obtain ⟨b, hb, he⟩ := ih h
          exact ⟨b, List.mem_cons_of_mem _ hb, he⟩

/-- The hit list is a filter of the processed keyword list, hence an
in-order sublist of it. -/
theorem hitsOf_sublist (mf : String) (kws : List String) (t d : List Char) :
    (hitsOf mf kws t d).Sublist kws :=
  List.filter_sublist kws

/-! ### Lemmas: the aggregation loop -/

theorem keyOf_stamp (s : String) (a : Article) : keyOf (stamp s a) = keyOf a := rfl

/-- Every article the loop keeps has a key that is non-empty and was not
in the seen set the loop started from. -/
theorem aggLoop_key_fresh {s : String} {a : Article} :
    ∀ {l : List Article} {seen : List String}, a ∈ aggLoop s seen l →
      keyOf a ∉ seen ∧ keyOf a ≠ "" := by
  intro l
  induction l with
  | nil => intro seen h; simp [aggLoop] at h
  | cons it rest ih =>
    intro seen h
    rw [aggLoop] at h
    by_cases hc : keyOf it ≠ "" ∧ keyOf it ∉ seen
    · rw [if_pos hc] at h
      rcases List.mem_cons.mp h with rfl | h
      · rw [keyOf_stamp]; exact ⟨hc.2, hc.1⟩
      · have := ih h
        exact ⟨fun hm => this.1 (List.mem_cons_of_mem _ hm), this.2⟩
    · rw [if_neg hc] at h
      exact ih h

/-- The keys of the kept articles are pairwise distinct. -/
theorem aggLoop_pairwise (s : String) :
    ∀ (l : List Article) (seen : List String),
      (aggLoop s seen l).Pairwise (fun a b => keyOf a ≠ keyOf b) := by
  intro l
  induction l with
  | nil => intro seen; simp [aggLoop]
  | cons it rest ih =>
    intro seen
    rw [aggLoop]
    by_cases hc : keyOf it ≠ "" ∧ keyOf it ∉ seen
    · rw [if_pos hc, List.pairwise_cons]
      refine ⟨?_, ih (keyOf it :: seen)⟩
      intro b hb
      have := (aggLoop_key_fresh hb).1
      rw [keyOf_stamp]
      exact fun he => this (he ▸ List.mem_cons_self _ _)
    · rw [if_neg hc]
      exact ih seen

/-- The kept articles are, in order, a sublist of all stamped items. -/
theorem aggLoop_sublist (s : String) :
    ∀ (l : List Article) (seen : List String),
      (aggLoop s seen l).Sublist (l.map (stamp s)) := by
  intro l
  induction l with
  | nil => intro seen; simp [aggLoop]
  | cons it rest ih =>
    intro seen
    rw [aggLoop, List.map_cons]
    by_cases hc : keyOf it ≠ "" ∧ keyOf it ∉ seen
    · rw [if_pos hc]
      exact List.Sublist.cons₂ _ (ih _)
    · rw [if_neg hc]
      exact List.Sublist.cons _ (ih seen)

/-- For any non-empty key not yet seen, the first kept article with that
key is the stamped first input item with that key. -/
theorem aggLoop_find (s : String) (k : String) :
    ∀ (l : List Article) (seen : List String), k ≠ "" → k ∉ seen →
      (aggLoop s seen l).find? (fun a => decide (keyOf a = k)) =
        (l.find? (fun a => decide (keyOf a = k))).map (stamp s) := by
  intro l
  induction l with
  | nil => intro seen _ _; simp [aggLoop]
  | cons it rest ih =>
    intro seen hk hseen
    rw [aggLoop]
    by_cases hit : keyOf it = k
    · have hc : keyOf it ≠ "" ∧ keyOf it ∉ seen := ⟨hit ▸ hk, hit ▸ hseen⟩
      rw [if_pos hc]
      rw [List.find?_cons_of_pos, List.find?_cons_of_pos] <;>
        simp [keyOf_stamp, hit]
    · by_cases hc : keyOf it ≠ "" ∧ keyOf it ∉ seen
      · rw [if_pos hc]
        rw [List.find?_cons_of_neg, List.find?_cons_of_neg]
        · exact ih (keyOf it :: seen) hk
            (fun hm => by
              rcases List.mem_cons.mp hm with he | hm2
              · exact hit he.symm
              · exact hseen hm2)
        · simp [hit]
        · simp [keyOf_stamp, hit]
      · rw [if_neg hc]
        rw [List.find?_cons_of_neg]
        · exact ih seen hk hseen
        · simp [hit]

/-! ### Lemmas: the category loop -/

/-- `filterMap` with an if-then-skip body is `filter` then `map`. -/
theorem classify_eq_filter_map (pool : List Article) (mf : String) :
    ∀ (cats : List CategorySpec),
      classify pool cats mf =
        (cats.filter (fun c => decide (kwsOf c ≠ []))).map
          (classifyCategory pool mf) := by
  intro cats
  induction cats with
  | nil => rfl
  | cons c cs ih =>
    rw [classify] at ih ⊢
    by_cases hc : kwsOf c = []
    · simp [List.filterMap_cons, List.filter_cons, hc, ih]
    · simp [List.filterMap_cons, List.filter_cons, hc, ih]

/-- The processed keyword list is non-empty exactly when some declared
keyword has a non-empty strip. -/
theorem kwsOf_ne_nil_iff (c : CategorySpec) :
    kwsOf c ≠ [] ↔ ∃ k, k ∈ c.keywords ∧ pyStripS k ≠ "" := by
  rw [kwsOf]
  constructor
  · intro h
    rcases List.exists_mem_of_ne_nil _ h with ⟨x, hx⟩
    rcases List.mem_map.mp hx with ⟨k, hk, _⟩
    rcases List.mem_filter.mp hk with ⟨hmem, hcond⟩
    exact ⟨k, hmem, of_decide_eq_true hcond⟩
  · rintro ⟨k, hmem, hk⟩ hnil
    rw [List.map_eq_nil_iff] at hnil
    have : k ∈ c.keywords.filter (fun k => decide (pyStripS k ≠ "")) :=
      List.mem_filter.mpr ⟨hmem, decide_eq_true hk⟩
    rw [hnil] at this
    exact List.not_mem_nil _ this

/-- A non-empty string has a non-empty character list. -/
theorem data_ne_nil {s : String} (h : s ≠ "") : s.data ≠ [] := by
  cases s with
  | mk l =>
    intro hl
    have hl2 : l = [] := hl
    exact h (by rw [hl2])

/-! ### The claims -/

/-- C1: feed fetching-and-parsing never raises to the caller.  In the
embedding `fetch_feed` is a total function on every raw outcome — the
fetch-failure and XML-parse-failure branches are values, `[]`, so no
error can abort the source, the request or the process; and parsing an
RSS item whose `pubDate` is absent or empty (and that has no Dublin-Core
date either) still yields an `Article`, with the date field defaulted to
`""`. -/
theorem C1_fetch_and_parse_total :
    (∀ n : Int, fetch_feed RawFeed.fetchError n = []) ∧
    (∀ n : Int, fetch_feed RawFeed.parseError n = []) ∧
    (∀ item : XElem, pyText item ["pubDate"] = "" →
      pyText item ["dc:date", "\x7bhttp://purl.org/dc/elements/1.1/\x7ddate"] = "" →
      (parseRssItem item).pubDate = "") :=
  ⟨fun _ => rfl, fun _ => rfl, fun item h1 h2 => by
    simp [parseRssItem, pyOr, h1, h2]⟩

theorem C1_fetch_and_parse_total_w :
    fetch_feed RawFeed.fetchError 50 = [] ∧
    fetch_feed RawFeed.parseError 50 = [] ∧
    (parseRssItem exItemC1).pubDate = "" :=
  ⟨C1_fetch_and_parse_total.1 50, C1_fetch_and_parse_total.2.1 50,
    C1_fetch_and_parse_total.2.2 exItemC1 rfl rfl⟩

/-- C2 as stated is false: an article whose title is the empty string at
emission time is emitted with title `""`, not `"Untitled"`, and an empty
link is emitted as `""`, not `"#"` — `item.get('title', 'Untitled')`
only defaults when the key is absent, and `fetch_feed` always stores the
key. -/
theorem C2_cex :
    (classifyCategory exPoolC2 "both" exCatC2).articles =
      [⟨"", "http://x", "", "S", ["water"]⟩,
       ⟨"water title", "", "", "S", ["water"]⟩] := by
  decide

/-- C2 (amended): the `'Untitled'`/`'#'` defaults never fire, because the
article records always carry the `title` and `link` keys; every emitted
record's title and link are exactly the matched pool article's original
(possibly empty) values, and matching used those original values. -/
theorem C2_amended (pool : List Article) (mf : String) (cat : CategorySpec)
    (m : MatchedArticle) (hm : m ∈ (classifyCategory pool mf cat).articles) :
    ∃ a ∈ pool, m.title = a.title ∧ m.link = a.link := by
  have hm2 : m ∈ sortDesc (matchLoop mf (kwsOf cat) [] pool) := hm
  obtain ⟨a, ha, he⟩ := matchLoop_mem (mem_sortDesc.mp hm2)
  exact ⟨a, ha, by rw [he]; exact ⟨rfl, rfl⟩⟩

theorem C2_amended_w :
    ∃ a ∈ exPoolC2,
      (⟨"", "http://x", "", "S", ["water"]⟩ : MatchedArticle).title = a.title ∧
      (⟨"", "http://x", "", "S", ["water"]⟩ : MatchedArticle).link = a.link :=
  C2_amended exPoolC2 "both" exCatC2 _ (by decide)

/-- C3 as stated is false: a requested bound of 0 is used as 0 — the code
computes `min(requested, 100)` and never clamps from below, so the bound
actually used does not lie in `[1, 100]`. -/
theorem C3_cex : ¬(1 ≤ clampMax 0 ∧ clampMax 0 ≤ 100) := by decide

/-- C3 (amended): the bound used when fetching is `min(requested, 100)`:
values above 100 are clamped to 100, values at most 100 — including 0 and
negative values — pass through unchanged, and only requests that are
already at least 1 yield a bound of at least 1. -/
theorem C3_amended (r : Int) :
    clampMax r ≤ 100 ∧ (r ≤ 100 → clampMax r = r) ∧ (1 ≤ r → 1 ≤ clampMax r) :=
  ⟨min_le_right _ _, fun h => min_eq_left h, fun h => le_min h (by omega)⟩

theorem C3_amended_w :
    clampMax 250 ≤ 100 ∧ clampMax 37 = 37 ∧ 1 ≤ clampMax 4 :=
  ⟨(C3_amended 250).1, (C3_amended 37).2.1 (by decide),
    (C3_amended 4).2.2 (by decide)⟩

/-- C4 as stated is false: the server does not deduplicate a category's
keyword list (`[k.lower() for k in ... if k.strip()]` keeps duplicates),
so a category declared with `["water", "water"]` produces
`hitKeywords = ["water", "water"]` — the same keyword twice. -/
theorem C4_cex :
    (classifyCategory exPoolC4 "title" exCatC4).articles =
      [⟨"water rising", "L", "", "S", ["water", "water"]⟩] := by
  decide

/-- C4 (amended): `hitKeywords` is an in-order sublist of the category's
processed keyword list (lowercased, blank entries dropped, declared order
and multiplicities kept); hence whenever the processed keyword list is
duplicate-free, each keyword appears at most once in `hitKeywords`. -/
theorem C4_amended (pool : List Article) (mf : String) (cat : CategorySpec)
    (m : MatchedArticle) (hm : m ∈ (classifyCategory pool mf cat).articles) :
    m.hitKws.Sublist (kwsOf cat) ∧ ((kwsOf cat).Nodup → m.hitKws.Nodup) := by
  have hm2 : m ∈ sortDesc (matchLoop mf (kwsOf cat) [] pool) := hm
  obtain ⟨a, _, he⟩ := matchLoop_mem (mem_sortDesc.mp hm2)
  have hs : m.hitKws.Sublist (kwsOf cat) := by
    rw [he]
    exact hitsOf_sublist mf (kwsOf cat) _ _
  exact ⟨hs, fun hn => hn.sublist hs⟩

theorem C4_amended_w :
    ((⟨"water rising", "L", "", "S", ["water", "water"]⟩ :
      MatchedArticle).hitKws).Sublist (kwsOf exCatC4) :=
  (C4_amended exPoolC4 "title" exCatC4 _ (by decide)).1

/-- C5 as stated is false: here the root's `channel` child exists, yet
items are extracted from the root, not from the channel — the code's
`root.find('channel') or root` treats the childless `channel` element as
falsy, and the `item` sitting directly under the root is returned even
though the channel contributes no items. -/
theorem C5_cex :
    pyFind exRootC5 "channel" = some exChannelC5 ∧
    pyFindall exChannelC5 "item" = [] ∧
    fetch_feed (RawFeed.xml exRootC5) 50 = [⟨"x", "lx", "", "", ""⟩] :=
  ⟨rfl, rfl, by decide⟩

/-- C5 (amended): for a feed treated as RSS, items are extracted from the
`channel` element exactly when a `channel` child exists *and has at least
one child element*; the root itself is treated as the channel when the
`channel` child is absent or has no children. -/
theorem C5_amended (root ch : XElem) (n : Int)
    (hfeed : containsFeed (pyLower root.tag) = false) :
    (pyFind root "channel" = some ch → ch.children ≠ [] →
      fetch_feed (RawFeed.xml root) n =
        (pyTake n (pyFindall ch "item")).map parseRssItem) ∧
    (pyFind root "channel" = some ch → ch.children = [] →
      fetch_feed (RawFeed.xml root) n =
        (pyTake n (pyFindall root "item")).map parseRssItem) ∧
    (pyFind root "channel" = none →
      fetch_feed (RawFeed.xml root) n =
        (pyTake n (pyFindall root "item")).map parseRssItem) := by
  refine ⟨?_, ?_, ?_⟩
  · intro hch hne
    have h2 : ch.children.isEmpty = false := by
      cases hc : ch.children with
      | nil => exact absurd hc hne
      | cons a l => rfl
    simp [fetch_feed, hfeed, hch, h2]
  · intro hch hnil
    have h2 : ch.children.isEmpty = true := by rw [hnil]; rfl
    simp [fetch_feed, hfeed, hch, h2]
  · intro hch
    simp [fetch_feed, hfeed, hch]

theorem C5_amended_w :
    fetch_feed (RawFeed.xml exRootC5b) 50 =
      (pyTake 50 (pyFindall exChannelC5b "item")).map parseRssItem :=
  (C5_amended exRootC5b exChannelC5b 50 rfl).1 rfl
    (by simp [exChannelC5b, XElem.children])

/-- C6: one source's aggregated sequence never contains two articles with
the same identity key; it is an in-order sublist of the stamped
concatenation of the per-URL item lists, and for every non-empty key the
article kept is the stamped *first* occurrence in URL-then-document
order — later duplicates are dropped. -/
theorem C6_dedup (s : String) (ls : List (List Article)) :
    (aggregateItems s ls).Pairwise (fun a b => keyOf a ≠ keyOf b) ∧
    (aggregateItems s ls).Sublist (ls.flatten.map (stamp s)) ∧
    (∀ k : String, k ≠ "" →
      (aggregateItems s ls).find? (fun a => decide (keyOf a = k)) =
        (ls.flatten.find? (fun a => decide (keyOf a = k))).map (stamp s)) :=
  ⟨aggLoop_pairwise s ls.flatten [], aggLoop_sublist s ls.flatten [],
    fun k hk => aggLoop_find s k ls.flatten [] hk (List.not_mem_nil k)⟩

theorem C6_dedup_w :
    (aggregateItems "S" exListsC6).Pairwise (fun a b => keyOf a ≠ keyOf b) ∧
    (aggregateItems "S" exListsC6).find? (fun a => decide (keyOf a = "L1")) =
      (exListsC6.flatten.find? (fun a => decide (keyOf a = "L1"))).map (stamp "S") :=
  ⟨(C6_dedup "S" exListsC6).1, (C6_dedup "S" exListsC6).2.2 "L1" (by decide)⟩

/-- C7: every category result is sorted by formatted-date string
descending under plain string comparison (adjacent-free pairwise form:
no earlier element is string-less-than a later one), and the sort is
stable: for every date value, the articles carrying it appear in exactly
the order the matching loop first emitted them. -/
theorem C7_sorted_stable (pool : List Article) (mf : String) (cat : CategorySpec) :
    (classifyCategory pool mf cat).articles.Pairwise (fun x y => dateLt x y = false) ∧
    (∀ d : String,
      (classifyCategory pool mf cat).articles.filter (fun m => decide (m.date = d)) =
        (matchLoop mf (kwsOf cat) [] pool).filter (fun m => decide (m.date = d))) :=
  ⟨pairwise_sortDesc _, fun d => filter_sortDesc d _⟩

/-- C8: date normalization returns the empty string on empty input;
when the stripped input is matched by one of the five fixed encodings it
returns the parsed calendar date as `M/D/YY` (no leading zeros on month
or day, two-digit year); and any non-empty input matching no pattern is
returned as its first 10 characters, unchanged. -/
theorem C8_fmt_date (s : String) :
    (s = "" → fmt_date s = "") ∧
    (∀ y m d : Nat, s ≠ "" → parseAny (pyStripL s.data) = some (y, m, d) →
      fmt_date s = String.mk (renderMDY y m d)) ∧
    (s ≠ "" → parseAny (pyStripL s.data) = none →
      fmt_date s = String.mk (s.data.take 10)) := by
  refine ⟨?_, ?_, ?_⟩
  · rintro rfl
    rfl
  · intro y m d hs hp
    rw [fmt_date, if_neg (data_ne_nil hs), hp]
  · intro hs hp
    rw [fmt_date, if_neg (data_ne_nil hs), hp]

theorem C8_fmt_date_w :
    fmt_date "" = "" ∧
    fmt_date "Mon, 01 Jan 2024 10:00:00 GMT" = "1/1/24" ∧
    fmt_date "not-a-date" = "not-a-date" :=
  ⟨(C8_fmt_date "").1 rfl,
    by
      have h := (C8_fmt_date "Mon, 01 Jan 2024 10:00:00 GMT").2.1 2024 1 1
        (by decide) (by decide)
      exact h.trans (by decide),
    by
      have h := (C8_fmt_date "not-a-date").2.2 (by decide) (by decide)
      exact h.trans (by decide)⟩

/-- C9: the response holds exactly one `CategoryResult` per input
category whose processed keyword list is non-empty, in input order (the
category loop is filter-then-map); and the processed keyword list is
non-empty exactly when the category declares at least one keyword whose
strip is non-empty — so a category with no keywords, or with only
empty/whitespace keywords, contributes nothing at all. -/
theorem C9_category_results (pool : List Article) (cats : List CategorySpec)
    (mf : String) (c : CategorySpec) :
    classify pool cats mf =
      (cats.filter (fun c => decide (kwsOf c ≠ []))).map (classifyCategory pool mf) ∧
    (kwsOf c ≠ [] ↔ ∃ k, k ∈ c.keywords ∧ pyStripS k ≠ "") :=
  ⟨classify_eq_filter_map pool mf cats, kwsOf_ne_nil_iff c⟩

/-- C10: every article in the aggregated pool has a non-empty identity
key — its link or its title is non-empty; and an item whose link and
title are both empty is dropped by the aggregation loop without any
other effect (never stamped, never appended). -/
theorem C10_pool_key_nonempty :
    (∀ (registry : String → List RawFeed) (srcNames : List String) (mi : Int)
      (a : Article), a ∈ searchPool registry srcNames mi →
        a.link ≠ "" ∨ a.title ≠ "") ∧
    (∀ (s : String) (seen : List String) (l : List Article) (a : Article),
      a.link = "" → a.title = "" → aggLoop s seen (a :: l) = aggLoop s seen l) := by
  constructor
  · intro registry srcNames mi a ha
    rcases List.mem_flatten.mp ha with ⟨sub, hsub, hmem⟩
    rcases List.mem_map.mp hsub with ⟨n, _, rfl⟩
    have hk := (aggLoop_key_fresh hmem).2
    rw [keyOf, pyOr] at hk
    by_cases hl : a.link = ""
    · right
      rw [if_pos hl] at hk
      exact hk
    · exact Or.inl hl
  · intro s seen l a h1 h2
    have hkey : keyOf a = "" := by rw [keyOf, pyOr, if_pos h1]; exact h2
    rw [aggLoop, if_neg (by simp [hkey])]

theorem C10_pool_key_nonempty_w :
    (⟨"x10", "l10", "", "", "S"⟩ : Article).link ≠ "" ∨
    (⟨"x10", "l10", "", "", "S"⟩ : Article).title ≠ "" :=
  C10_pool_key_nonempty.1 exRegC10 ["S"] 50 _ (by decide)

end NewsHound
